import Mathlib

/-
Verification of the Plantia entity store and recurring-task engine.

The development shallowly embeds the two IndexedDB-backed store
implementations found in the repository:

* the embedded variant that derives task recurrence from free text via
  `parseFrequency` / `createTaskFromProfile` / `db.*` (src/unnamed/part_020), and
* the variant in src/services/api.ts, which seeds fixed default tasks,
  derives recurrence from the task type (`RECURRENCE_DAYS`) and guards
  against completing an already-completed task,

together with the remote category-creation endpoint (src/unnamed/part_009).

Strings are lists of characters; timestamps are natural numbers counted in
days; record identifiers (uuid / `plant_${Date.now()}` strings in the
source) are natural numbers, and `getAll` on an object store returns the
records in ascending key order, as the IndexedDB contract guarantees.
-/

namespace Plantia

/-- Strings of the source are modelled as lists of characters. -/
abbrev Str := List Char

/-- Does the string start with the given literal?  This is the literal part
of a regex match attempt, and JS `String.prototype.startsWith`. -/
def hasPre : Str → Str → Bool
  | [], _ => true
  | _ :: _, [] => false
  | p :: ps, c :: cs => p == c && hasPre ps cs

/-- Strip a literal from the front of a string, returning the remainder on
success. -/
def stripL : Str → Str → Option Str
  | [], s => some s
  | _ :: _, [] => none
  | p :: ps, c :: cs => if p == c then stripL ps cs else none

/-- JS `String.prototype.includes`: the pattern occurs as a contiguous
substring. -/
def containsSub (pat : Str) : Str → Bool
  | [] => pat.isEmpty
  | c :: cs => hasPre pat (c :: cs) || containsSub pat cs

/-- The regex character class `\d` (ASCII digits). -/
def isDig (c : Char) : Bool := Nat.ble 48 c.toNat && Nat.ble c.toNat 57

/-- `parseInt(ds, 10)` on a run of decimal digits. -/
def natOfDigits (ds : Str) : Nat := ds.foldl (fun a c => 10 * a + (c.toNat - 48)) 0

/-- JS `toLowerCase`, which acts character by character on the ASCII inputs
the parser's rules concern. -/
def lowerStr (s : Str) : Str := s.map Char.toLower

/-- The literal `every ` opening both regexes of `parseFrequency`. -/
def everyLit : Str := ['e', 'v', 'e', 'r', 'y', ' ']

/-- The tail ` days` demanded by the regex `every (\d+)-?(\d+)? days`. -/
def daysTail : Str := [' ', 'd', 'a', 'y', 's']

/-- The tail ` week` demanded by the regex `every (\d+)-?(\d+)? weeks?`;
because the final `s` is optional, a match is exactly the presence of
` week` after the digit part. -/
def weekTail : Str := [' ', 'w', 'e', 'e', 'k']

/-- Attempt, at the current position, a match of the regex
`every (\d+)-?(\d+)? <tail>`, returning the value of the first digit group.
The backtracking regex semantics collapses to this deterministic form: the
first digit group must be the maximal digit run (a shorter choice leaves a
digit where `-?` or ` ` is required, or rejoins the same boundary), the `-`
is consumed whenever present (otherwise the tail would have to start at the
`-`), and the optional second digit group is likewise maximal. -/
def matchEveryAt (tail l : Str) : Option Nat :=
  match stripL everyLit l with
  | none => none
  | some r =>
    let d := r.takeWhile isDig
    if d.isEmpty then none
    else
      let r1 := r.dropWhile isDig
      let r2 := if r1.head? == some '-' then r1.tail.dropWhile isDig else r1
      if hasPre tail r2 then some (natOfDigits d) else none

/-- Leftmost regex match: scan the positions of the string left to right and
return the value of the first successful match attempt. -/
def findEvery (tail : Str) : Str → Option Nat
  | [] => none
  | c :: cs =>
    match matchEveryAt tail (c :: cs) with
    | some n => some n
    | none => findEvery tail cs

/-- The literal `monthly`. -/
def monthlyLit : Str := ['m', 'o', 'n', 't', 'h', 'l', 'y']

/-- The literal `every 4 weeks`. -/
def every4Lit : Str := ['e', 'v', 'e', 'r', 'y', ' ', '4', ' ', 'w', 'e', 'e', 'k', 's']

/-- The literal `bi-weekly`. -/
def biWeeklyLit : Str := ['b', 'i', '-', 'w', 'e', 'e', 'k', 'l', 'y']

/-- The literal `every 2 weeks`. -/
def every2Lit : Str := ['e', 'v', 'e', 'r', 'y', ' ', '2', ' ', 'w', 'e', 'e', 'k', 's']

/-- The literal `weekly`. -/
def weeklyLit : Str := ['w', 'e', 'e', 'k', 'l', 'y']

/-- `parseFrequency` (src/unnamed/part_020, lines 161-180): lowercase the
instruction, try the day regex, then the week regex, then the ordered
`includes` ladder, defaulting to 0. -/
def parseFrequency (instruction : Str) : Nat :=
  let l := lowerStr instruction
  match findEvery daysTail l with
  | some n => n
  | none =>
    match findEvery weekTail l with
    | some n => n * 7
    | none =>
      if containsSub monthlyLit l || containsSub every4Lit l then 28
      else if containsSub biWeeklyLit l || containsSub every2Lit l then 14
      else if containsSub weeklyLit l then 7
      else 0

/-- An instruction on which none of the parser's rules fires: neither regex
matches anywhere and none of the five literals occurs. -/
def matchesNoRule (s : Str) : Bool :=
  let l := lowerStr s
  (findEvery daysTail l).isNone && (findEvery weekTail l).isNone &&
  !containsSub monthlyLit l && !containsSub every4Lit l &&
  !containsSub biWeeklyLit l && !containsSub every2Lit l &&
  !containsSub weeklyLit l

end Plantia

namespace Plantia

/-- Task types (src/types.ts). -/
inductive TaskType where
  | water
  | fertilize
  | prune
  | repot
  | custom
deriving DecidableEq, Repr

/-- A Plant record (src/types.ts; fields as written by `db.addPlant`). -/
structure Plant where
  id : Nat
  species : Str
  commonName : Str
  confidence : Option Nat
  nickname : Str
  location : Option Str
  categoryId : Option Nat
  createdAt : Nat
  photoUrl : Option Str
deriving DecidableEq, Repr

/-- A CareProfile record; in the embedded backend its key `id` equals the
plant's id. -/
structure CareProfile where
  id : Nat
  plantId : Nat
  species : Str
  sunlight : Str
  watering : Str
  soil : Str
  fertilizer : Str
  tempRange : Str
  humidity : Str
  tips : Option Str
deriving DecidableEq, Repr

/-- A Photo record. -/
structure Photo where
  id : Nat
  plantId : Nat
  url : Str
  takenAt : Nat
  notes : Option Str
deriving DecidableEq, Repr

/-- A Task record.  The source reads `task.notes || ""`, so an absent notes
field is modelled as the empty string. -/
structure Task where
  id : Nat
  plantId : Nat
  type : TaskType
  title : Str
  notes : Str
  nextRunAt : Nat
  completedAt : Option Nat
deriving DecidableEq, Repr

/-- An AIHistory record. -/
structure AIHistory where
  id : Nat
  plantId : Nat
  question : Str
  answer : Str
  createdAt : Nat
deriving DecidableEq, Repr

/-- A Category record. -/
structure Category where
  id : Nat
  name : Str
  createdAt : Nat
deriving DecidableEq, Repr

/-- The six persisted collections of the store (`StoredData` in
src/types.ts). -/
structure StoredData where
  plants : List Plant
  careProfiles : List CareProfile
  photos : List Photo
  tasks : List Task
  aiHistory : List AIHistory
  categories : List Category
deriving DecidableEq, Repr

/-- The care-profile part of an identification result
(`PlantIdentificationResult.careProfile`). -/
structure CareProfileInput where
  sunlight : Str
  watering : Str
  soil : Str
  fertilizer : Str
  tempRange : Str
  humidity : Str
  tips : Option Str
deriving DecidableEq, Repr

/-- An identification result handed to `addPlant`. -/
structure Identification where
  species : Str
  commonName : Str
  confidence : Option Nat
  careProfile : CareProfileInput
deriving DecidableEq, Repr

/-- IndexedDB `getAll` returns records in ascending key order; keys are the
opaque `id` fields, modelled as naturals. -/
def keyOrderP (l : List Plant) : List Plant :=
  List.insertionSort (fun a b => a.id ≤ b.id) l

/-- `store.put` replaces the record carrying the same key, inserting the
record when the key is absent. -/
def putTask (t : Task) (l : List Task) : List Task :=
  if l.any (fun u => u.id == t.id) then
    l.map (fun u => if u.id == t.id then t else u)
  else l ++ [t]

/-- The notes text written at seeding time:
`Based on care profile: "<instruction>"`. -/
def notesWrap (instruction : Str) : Str :=
  "Based on care profile: \"".toList ++ instruction ++ ['"']

/-- Title of a seeded watering task. -/
def waterTitle : Str := "Water Plant".toList

/-- Title of a seeded fertilizing task (embedded variant). -/
def fertilizeTitle : Str := "Fertilize Plant".toList

/-- `createTaskFromProfile` (src/unnamed/part_020, lines 182-197): parse the
instruction; when the interval is positive, build a pending task due in that
many days whose notes quote the instruction; otherwise produce nothing. -/
def createTaskFromProfile (newId now plantId : Nat) (ty : TaskType)
    (title instruction : Str) : Option Task :=
  let days := parseFrequency instruction
  if days > 0 then
    some { id := newId, plantId := plantId, type := ty, title := title,
           notes := notesWrap instruction, nextRunAt := now + days,
           completedAt := none }
  else none

/-- `db.addPlant` (src/unnamed/part_020, lines 232-268): one transaction
adds the plant, its care profile keyed by the plant id, the optional initial
photo, and the 0-2 tasks seeded from the watering and fertilizer
instructions. -/
def addPlant (plantId photoId waterId fertId now : Nat)
    (ident : Identification) (nickname : Str) (initialPhotoUrl : Option Str)
    (categoryId : Option Nat) (s : StoredData) : Plant × StoredData :=
  let newPlant : Plant :=
    { id := plantId, species := ident.species, commonName := ident.commonName,
      confidence := ident.confidence, nickname := nickname, location := none,
      categoryId := categoryId, createdAt := now, photoUrl := initialPhotoUrl }
  let newCareProfile : CareProfile :=
    { id := plantId, plantId := plantId, species := ident.species,
      sunlight := ident.careProfile.sunlight, watering := ident.careProfile.watering,
      soil := ident.careProfile.soil, fertilizer := ident.careProfile.fertilizer,
      tempRange := ident.careProfile.tempRange, humidity := ident.careProfile.humidity,
      tips := ident.careProfile.tips }
  let photos' := match initialPhotoUrl with
    | some url => s.photos ++
        [{ id := photoId, plantId := plantId, url := url, takenAt := now, notes := none }]
    | none => s.photos
  let wateringTask :=
    createTaskFromProfile waterId now plantId TaskType.water waterTitle
      ident.careProfile.watering
  let fertilizerTask :=
    createTaskFromProfile fertId now plantId TaskType.fertilize fertilizeTitle
      ident.careProfile.fertilizer
  (newPlant,
    { s with plants := s.plants ++ [newPlant],
             careProfiles := s.careProfiles ++ [newCareProfile],
             photos := photos',
             tasks := s.tasks ++ wateringTask.toList ++ fertilizerTask.toList })

/-- `db.markTaskComplete` (src/unnamed/part_020, lines 313-336): look the
task up by key (rejecting an unknown id), stamp `completedAt`, re-parse the
stored notes, and when the interval is positive add a successor copying the
task with a fresh id, due `now + interval`, not completed. -/
def markTaskComplete (newId now taskId : Nat) (s : StoredData) :
    Option ((Task × Option Task) × StoredData) :=
  match s.tasks.find? (fun t => t.id == taskId) with
  | none => none
  | some task =>
    let updatedTask : Task := { task with completedAt := some now }
    let frequency := parseFrequency task.notes
    let newTask : Option Task :=
      if frequency > 0 then
        some { task with id := newId, nextRunAt := now + frequency,
                         completedAt := none }
      else none
    some ((updatedTask, newTask),
      { s with tasks := putTask updatedTask s.tasks ++ newTask.toList })

/-- `db.deletePlant` (src/unnamed/part_020, lines 338-361): one transaction
deletes the plant and the care profile by key, and cursor-deletes every
photo, task and history entry whose `plantId` matches. -/
def deletePlant (pid : Nat) (s : StoredData) : StoredData :=
  { s with plants := s.plants.filter (fun p => p.id != pid),
           careProfiles := s.careProfiles.filter (fun cp => cp.id != pid),
           photos := s.photos.filter (fun ph => ph.plantId != pid),
           tasks := s.tasks.filter (fun t => t.plantId != pid),
           aiHistory := s.aiHistory.filter (fun h => h.plantId != pid) }

/-- `db.deleteCategory` (src/unnamed/part_020, lines 277-297): one
transaction deletes the category by key and clears `categoryId` on every
plant that referenced it. -/
def deleteCategory (cid : Nat) (s : StoredData) : StoredData :=
  { s with categories := s.categories.filter (fun c => c.id != cid),
           plants := s.plants.map (fun p =>
             if p.categoryId == some cid then { p with categoryId := none } else p) }

/-- `db.addCategory` (src/unnamed/part_020, lines 270-275): build the
category from the given name and add it; no validation of any kind. -/
def addCategory (newId now : Nat) (name : Str) (s : StoredData) :
    Category × StoredData :=
  let c : Category := { id := newId, name := name, createdAt := now }
  (c, { s with categories := s.categories ++ [c] })

/-- `db.getPlants` (src/unnamed/part_020, lines 200-203): plain `getAll`,
so the plants arrive in key order, with no further sorting. -/
def getPlants (s : StoredData) : List Plant := keyOrderP s.plants

/-- The result shape of `getPlantDetails`. -/
structure PlantDetailsData where
  plant : Plant
  careProfile : Option CareProfile
  photos : List Photo
  tasks : List Task
  history : List AIHistory
deriving DecidableEq, Repr

/-- `db.getPlantDetails` (src/unnamed/part_020, lines 217-230): `null` when
the plant id is unknown; otherwise the plant, its care profile fetched by
key, and the photos, tasks and history filtered by `plantId` (photos sorted
by `takenAt` descending, history by `createdAt` descending). -/
def getPlantDetails (plantId : Nat) (s : StoredData) : Option PlantDetailsData :=
  match s.plants.find? (fun p => p.id == plantId) with
  | none => none
  | some plant =>
    some { plant := plant,
           careProfile := s.careProfiles.find? (fun cp => cp.id == plantId),
           photos := List.insertionSort (fun a b => b.takenAt ≤ a.takenAt)
             (s.photos.filter (fun ph => ph.plantId == plantId)),
           tasks := s.tasks.filter (fun t => t.plantId == plantId),
           history := List.insertionSort (fun a b => b.createdAt ≤ a.createdAt)
             (s.aiHistory.filter (fun h => h.plantId == plantId)) }

/-- `db.getPlants` of the src/services/api.ts variant (lines 505-512):
`getAll`, then sort by `createdAt` descending. -/
def api_getPlants (s : StoredData) : List Plant :=
  List.insertionSort (fun a b => b.createdAt ≤ a.createdAt) (keyOrderP s.plants)

/-- `db.addPlant` of the src/services/api.ts variant (lines 549-609): the
plant, the care profile (its own key), the optional initial photo, and two
fixed default tasks - water due in 3 days and fertilize due in 14 days -
regardless of the care-profile text. -/
def api_addPlant (plantId cpId photoId waterId fertId now : Nat)
    (ident : Identification) (nickname location : Option Str)
    (categoryId : Option Nat) (initialPhotoUrl : Option Str)
    (s : StoredData) : Plant × StoredData :=
  let newPlant : Plant :=
    { id := plantId, species := ident.species, commonName := ident.commonName,
      confidence := ident.confidence, nickname := nickname.getD [],
      location := location, categoryId := categoryId, createdAt := now,
      photoUrl := none }
  let newCareProfile : CareProfile :=
    { id := cpId, plantId := plantId, species := ident.species,
      sunlight := ident.careProfile.sunlight, watering := ident.careProfile.watering,
      soil := ident.careProfile.soil, fertilizer := ident.careProfile.fertilizer,
      tempRange := ident.careProfile.tempRange, humidity := ident.careProfile.humidity,
      tips := ident.careProfile.tips }
  let photos' := match initialPhotoUrl with
    | some url => s.photos ++
        [{ id := photoId, plantId := plantId, url := url, takenAt := now,
           notes := some ("Initial photo".toList) }]
    | none => s.photos
  (newPlant,
    { s with plants := s.plants ++ [newPlant],
             careProfiles := s.careProfiles ++ [newCareProfile],
             photos := photos',
             tasks := s.tasks ++
               [{ id := waterId, plantId := plantId, type := TaskType.water,
                  title := waterTitle, notes := [], nextRunAt := now + 3,
                  completedAt := none },
                { id := fertId, plantId := plantId, type := TaskType.fertilize,
                  title := "Fertilize".toList, notes := [], nextRunAt := now + 14,
                  completedAt := none }] })

/-- `RECURRENCE_DAYS` of the src/services/api.ts variant: recurrence is a
fixed function of the task type. -/
def RECURRENCE_DAYS : TaskType → Option Nat
  | TaskType.water => some 7
  | TaskType.fertilize => some 30
  | _ => none

/-- `db.markTaskComplete` of the src/services/api.ts variant (lines
663-706): unknown id rejected; an already-completed task is returned
unchanged with no successor and no write; otherwise stamp `completedAt` and
add a successor whenever `RECURRENCE_DAYS` knows the task's type, due that
many days after completion, copying plantId, type, title and notes. -/
def api_markTaskComplete (newId now taskId : Nat) (s : StoredData) :
    Option ((Task × Option Task) × StoredData) :=
  match s.tasks.find? (fun t => t.id == taskId) with
  | none => none
  | some task =>
    if task.completedAt.isSome then some ((task, none), s)
    else
      let updatedTask : Task := { task with completedAt := some now }
      let newTask : Option Task := (RECURRENCE_DAYS task.type).map (fun d =>
        { id := newId, plantId := task.plantId, type := task.type,
          title := task.title, notes := task.notes, nextRunAt := now + d,
          completedAt := none })
      some ((updatedTask, newTask),
        { s with tasks := putTask updatedTask s.tasks ++ newTask.toList })

/-- Whitespace trimming (JS `String.prototype.trim`, on the ASCII
whitespace the endpoint's validation concerns). -/
def trimStr (s : Str) : Str :=
  ((s.dropWhile Char.isWhitespace).reverse.dropWhile Char.isWhitespace).reverse

/-- Outcome of the remote category-creation endpoint. -/
inductive CategoryPost where
  | validationFailed
  | created (c : Category)
deriving DecidableEq, Repr

/-- `POST /api/categories` (src/unnamed/part_009, lines 62-84): reject the
request when the name trims to nothing, otherwise insert exactly one
category carrying the trimmed name and return it. -/
def postCategory (newId now : Nat) (name : Str) (s : StoredData) :
    CategoryPost × StoredData :=
  if (trimStr name).isEmpty then (CategoryPost.validationFailed, s)
  else
    let c : Category := { id := newId, name := trimStr name, createdAt := now }
    (CategoryPost.created c, { s with categories := s.categories ++ [c] })

/-- C4: the Frequency Parser is a pure function from instruction text to a
day count returning 7 for `every 7 days`, 14 for `every 2 weeks`, 28 for
`monthly`, 14 for `bi-weekly`, 7 for `weekly`, 0 for `occasionally`, and 0
for any instruction on which none of its rules fires. -/
theorem parseFrequency_table (s : Str) (h : matchesNoRule s = true) :
    parseFrequency s = 0 ∧
    parseFrequency ("every 7 days".toList) = 7 ∧
    parseFrequency ("every 2 weeks".toList) = 14 ∧
    parseFrequency ("monthly".toList) = 28 ∧
    parseFrequency ("bi-weekly".toList) = 14 ∧
    parseFrequency ("weekly".toList) = 7 ∧
    parseFrequency ("occasionally".toList) = 0 := by
  refine ⟨?_, by decide, by decide, by decide, by decide, by decide, by decide⟩
  simp only [matchesNoRule, Bool.and_eq_true, Bool.not_eq_true',
    Option.isNone_iff_eq_none] at h
  obtain ⟨⟨⟨⟨⟨⟨h1, h2⟩, h3⟩, h4⟩, h5⟩, h6⟩, h7⟩ := h
  simp only [parseFrequency, h1, h2, h3, h4, h5, h6, h7, Bool.or_self,
    if_neg, if_pos, Bool.false_eq_true, ite_false]

/-- C4 witness: `occasionally` fires no rule, and the table holds there. -/
theorem parseFrequency_table_w :
    matchesNoRule ("occasionally".toList) = true ∧
    parseFrequency ("occasionally".toList) = 0 :=
  ⟨by decide, (parseFrequency_table ("occasionally".toList) (by decide)).1⟩

/-- One of the rules following the day regex in `parseFrequency` applies:
the week regex matches somewhere, or one of the five literal rules fires. -/
def laterRuleApplies (s : Str) : Prop :=
  (findEvery weekTail (lowerStr s)).isSome = true ∨
  containsSub monthlyLit (lowerStr s) = true ∨
  containsSub every4Lit (lowerStr s) = true ∨
  containsSub biWeeklyLit (lowerStr s) = true ∨
  containsSub every2Lit (lowerStr s) = true ∨
  containsSub weeklyLit (lowerStr s) = true

/-- C5: on an instruction matched both by the day regex (with first group
`n`) and by any later rule, the parser returns `n`: evaluation is
first-match-wins with the day pattern first. -/
theorem parseFrequency_day_precedence (s : Str) (n : Nat)
    (hd : findEvery daysTail (lowerStr s) = some n) (_ : laterRuleApplies s) :
    parseFrequency s = n := by
  simp only [parseFrequency, hd]

/-- C5 witness: `every 3 days weekly` matches the day regex with group 3 and
the `weekly` rule, and the parser returns 3. -/
theorem parseFrequency_day_precedence_w :
    findEvery daysTail (lowerStr ("every 3 days weekly".toList)) = some 3 ∧
    laterRuleApplies ("every 3 days weekly".toList) ∧
    parseFrequency ("every 3 days weekly".toList) = 3 :=
  ⟨by decide, Or.inr (Or.inr (Or.inr (Or.inr (Or.inr (by decide))))),
    parseFrequency_day_precedence ("every 3 days weekly".toList) 3 (by decide)
      (Or.inr (Or.inr (Or.inr (Or.inr (Or.inr (by decide))))))⟩

/-- A store with all six collections empty. -/
def exEmpty : StoredData := ⟨[], [], [], [], [], []⟩

/-- An identification whose watering and fertilizer instructions both parse
to 0 days. -/
def exIdentNoFreq : Identification :=
  { species := "Ficus".toList, commonName := "Fig".toList, confidence := some 1,
    careProfile := { sunlight := [], watering := "occasionally".toList, soil := [],
                     fertilizer := "rarely".toList, tempRange := [], humidity := [],
                     tips := none } }

/-- C1 counterexample: in the src/services/api.ts variant, a care profile
whose watering and fertilizer fields both parse to 0 days still seeds two
tasks (water due now+3, fertilize due now+14); the claim asks for zero. -/
theorem api_addPlant_ignores_profile :
    parseFrequency exIdentNoFreq.careProfile.watering = 0 ∧
    parseFrequency exIdentNoFreq.careProfile.fertilizer = 0 ∧
    (api_addPlant 1 2 3 4 5 10 exIdentNoFreq none none none none exEmpty).2.tasks =
      [{ id := 4, plantId := 1, type := TaskType.water, title := waterTitle,
         notes := [], nextRunAt := 13, completedAt := none },
       { id := 5, plantId := 1, type := TaskType.fertilize,
         title := "Fertilize".toList, notes := [], nextRunAt := 24,
         completedAt := none }] := by
  decide

/-- C1 (amended to the embedded part_020 backend): `addPlant` seeds, past
the existing tasks, exactly one pending water task when the watering
instruction parses to a positive interval - due that many days after
creation, its notes quoting the instruction - and likewise one fertilize
task for the fertilizer instruction; a field parsing to 0 contributes no
task. -/
theorem addPlant_seeds_from_instructions (plantId photoId waterId fertId now : Nat)
    (ident : Identification) (nickname : Str) (url : Option Str)
    (catId : Option Nat) (s : StoredData) :
    (addPlant plantId photoId waterId fertId now ident nickname url catId s).2.tasks =
      s.tasks ++
      (if parseFrequency ident.careProfile.watering > 0 then
        [{ id := waterId, plantId := plantId, type := TaskType.water,
           title := waterTitle, notes := notesWrap ident.careProfile.watering,
           nextRunAt := now + parseFrequency ident.careProfile.watering,
           completedAt := none }]
       else []) ++
      (if parseFrequency ident.careProfile.fertilizer > 0 then
        [{ id := fertId, plantId := plantId, type := TaskType.fertilize,
           title := fertilizeTitle, notes := notesWrap ident.careProfile.fertilizer,
           nextRunAt := now + parseFrequency ident.careProfile.fertilizer,
           completedAt := none }]
       else []) := by
  simp only [addPlant, createTaskFromProfile]
  split <;> split <;> simp [Option.toList]

/-- A task already completed at time 12 whose notes parse to 7 days. -/
def exCompletedTask : Task :=
  { id := 1, plantId := 1, type := TaskType.water, title := waterTitle,
    notes := "every 7 days".toList, nextRunAt := 10, completedAt := some 12 }

/-- A store holding only `exCompletedTask`. -/
def exStDone : StoredData := { exEmpty with tasks := [exCompletedTask] }

/-- C3 counterexample: in the embedded part_020 backend, completing an
already-completed task is not a no-op - `completedAt` is overwritten with
the new time, a fresh successor is created, and the store grows by one
task. -/
theorem markTaskComplete_not_noop :
    exCompletedTask.completedAt = some 12 ∧
    (markTaskComplete 2 20 1 exStDone).map
        (fun r => (r.1.1.completedAt, r.1.2.isSome, r.2.tasks.length)) =
      some (some 20, true, 2) := by
  decide

/-- C3 (amended to the src/services/api.ts variant): completing a task that
already carries a `completedAt` is a no-op - the unchanged task is returned,
no successor is created and the store is untouched. -/
theorem api_markTaskComplete_noop (newId now taskId : Nat) (s : StoredData)
    (t : Task) (hfind : s.tasks.find? (fun u => u.id == taskId) = some t)
    (hdone : t.completedAt.isSome = true) :
    api_markTaskComplete newId now taskId s = some ((t, none), s) := by
  simp [api_markTaskComplete, hfind, hdone]

/-- C3 witness: the no-op branch fires on a concrete completed task. -/
theorem api_markTaskComplete_noop_w :
    exStDone.tasks.find? (fun u => u.id == 1) = some exCompletedTask ∧
    exCompletedTask.completedAt.isSome = true ∧
    api_markTaskComplete 2 20 1 exStDone = some ((exCompletedTask, none), exStDone) :=
  ⟨by decide, by decide,
    api_markTaskComplete_noop 2 20 1 exStDone exCompletedTask (by decide) (by decide)⟩

/-- C6: after `deletePlant p.id`, the plant's details read back as NotFound,
no care profile, photo, task or history entry referencing the plant remains,
records tied to other plants survive, and categories are untouched.  The
hypothesis `hcp` is invariant 1 of the store - a care profile's key equals
its plant's id - which `addPlant` establishes and the key-based delete
relies on. -/
theorem deletePlant_cascade (s : StoredData) (p : Plant) (hp : p ∈ s.plants)
    (hcp : ∀ cp ∈ s.careProfiles, cp.id = cp.plantId) :
    getPlantDetails p.id (deletePlant p.id s) = none ∧
    (∀ cp ∈ (deletePlant p.id s).careProfiles, cp.plantId ≠ p.id) ∧
    (∀ ph ∈ (deletePlant p.id s).photos, ph.plantId ≠ p.id) ∧
    (∀ t ∈ (deletePlant p.id s).tasks, t.plantId ≠ p.id) ∧
    (∀ h ∈ (deletePlant p.id s).aiHistory, h.plantId ≠ p.id) ∧
    (∀ q ∈ s.plants, q.id ≠ p.id → q ∈ (deletePlant p.id s).plants) ∧
    (∀ cp ∈ s.careProfiles, cp.id ≠ p.id → cp ∈ (deletePlant p.id s).careProfiles) ∧
    (∀ ph ∈ s.photos, ph.plantId ≠ p.id → ph ∈ (deletePlant p.id s).photos) ∧
    (∀ t ∈ s.tasks, t.plantId ≠ p.id → t ∈ (deletePlant p.id s).tasks) ∧
    (∀ h ∈ s.aiHistory, h.plantId ≠ p.id → h ∈ (deletePlant p.id s).aiHistory) ∧
    (deletePlant p.id s).categories = s.categories := by
  refine ⟨?_, ?_, ?_, ?_, ?_, ?_, ?_, ?_, ?_, ?_, rfl⟩
  · simp only [getPlantDetails, deletePlant]
    have : (s.plants.filter fun q => q.id != p.id).find? (fun q => q.id == p.id) = none := by
      rw [List.find?_eq_none]
      intro q hq
      have := (List.mem_filter.mp hq).2
      simpa using this
    simp [this]
  · intro cp hcp'
    have h1 := List.mem_filter.mp hcp'
    have h2 := hcp cp h1.1
    have h3 : cp.id ≠ p.id := by simpa using h1.2
    omega
  · intro ph hph
    simpa using (List.mem_filter.mp hph).2
  · intro t ht
    simpa using (List.mem_filter.mp ht).2
  · intro h hh
    simpa using (List.mem_filter.mp hh).2
  · intro q hq hne
    exact List.mem_filter.mpr ⟨hq, by simpa using hne⟩
  · intro cp hmem hne
    exact List.mem_filter.mpr ⟨hmem, by simpa using hne⟩
  · intro ph hmem hne
    exact List.mem_filter.mpr ⟨hmem, by simpa using hne⟩
  · intro t hmem hne
    exact List.mem_filter.mpr ⟨hmem, by simpa using hne⟩
  · intro h hmem hne
    exact List.mem_filter.mpr ⟨hmem, by simpa using hne⟩

/-- A plant referencing category 7. -/
def exPlant1 : Plant :=
  { id := 1, species := [], commonName := [], confidence := none,
    nickname := [], location := none, categoryId := some 7,
    createdAt := 10, photoUrl := none }

/-- A populated store: two plants with care profiles keyed by plant id,
photos, tasks and history split across them, and one category. -/
def exStTwo : StoredData :=
  { plants := [exPlant1,
               { id := 2, species := [], commonName := [], confidence := none,
                 nickname := [], location := none, categoryId := none,
                 createdAt := 20, photoUrl := none }],
    careProfiles := [{ id := 1, plantId := 1, species := [], sunlight := [],
                       watering := [], soil := [], fertilizer := [],
                       tempRange := [], humidity := [], tips := none },
                     { id := 2, plantId := 2, species := [], sunlight := [],
                       watering := [], soil := [], fertilizer := [],
                       tempRange := [], humidity := [], tips := none }],
    photos := [{ id := 3, plantId := 1, url := [], takenAt := 11, notes := none },
               { id := 4, plantId := 2, url := [], takenAt := 12, notes := none }],
    tasks := [{ id := 5, plantId := 1, type := TaskType.water, title := [],
                notes := [], nextRunAt := 15, completedAt := none },
              { id := 6, plantId := 2, type := TaskType.fertilize, title := [],
                notes := [], nextRunAt := 16, completedAt := none }],
    aiHistory := [{ id := 8, plantId := 1, question := [], answer := [],
                    createdAt := 13 }],
    categories := [{ id := 7, name := "Herbs".toList, createdAt := 1 }] }

/-- C6 witness: the cascade holds on the populated store when plant 1 is
deleted. -/
theorem deletePlant_cascade_w :
    exPlant1 ∈ exStTwo.plants ∧
    (∀ cp ∈ exStTwo.careProfiles, cp.id = cp.plantId) ∧
    getPlantDetails exPlant1.id (deletePlant exPlant1.id exStTwo) = none :=
  ⟨by decide, by decide,
    (deletePlant_cascade exStTwo exPlant1 (by decide) (by decide)).1⟩

/-- C7: after `deleteCategory cid`, no category with that id remains, the
number of plants is unchanged, every plant that referenced the category
survives with `categoryId` cleared, and every other plant survives
unchanged. -/
theorem deleteCategory_nullify (s : StoredData) (cid : Nat) :
    (∀ c ∈ (deleteCategory cid s).categories, c.id ≠ cid) ∧
    (deleteCategory cid s).plants.length = s.plants.length ∧
    ∀ p ∈ s.plants,
      (p.categoryId = some cid →
        { p with categoryId := none } ∈ (deleteCategory cid s).plants) ∧
      (p.categoryId ≠ some cid → p ∈ (deleteCategory cid s).plants) := by
  refine ⟨?_, by simp [deleteCategory], ?_⟩
  · intro c hc
    simpa using (List.mem_filter.mp hc).2
  · intro p hp
    constructor
    · intro hcat
      have : (fun q => if q.categoryId == some cid then { q with categoryId := none } else q) p
          = { p with categoryId := none } := by
        simp [hcat]
      exact this ▸ List.mem_map_of_mem _ hp
    · intro hcat
      have : (fun q => if q.categoryId == some cid then { q with categoryId := none } else q) p
          = p := by
        simp only [beq_iff_eq, if_neg hcat]
      exact this ▸ List.mem_map_of_mem _ hp

/-- C7 witness: deleting category 7 from the populated store clears the
reference on plant 1 and keeps both plants. -/
theorem deleteCategory_nullify_w :
    (∀ c ∈ (deleteCategory 7 exStTwo).categories, c.id ≠ 7) ∧
    (deleteCategory 7 exStTwo).plants.length = exStTwo.plants.length ∧
    (exPlant1 ∈ exStTwo.plants ∧ exPlant1.categoryId = some 7 ∧
      { exPlant1 with categoryId := none } ∈ (deleteCategory 7 exStTwo).plants) := by
  have h := deleteCategory_nullify exStTwo 7
  exact ⟨h.1, h.2.1, by decide, by decide,
    (h.2.2 exPlant1 (by decide)).1 (by decide)⟩

/-- C8 counterexample: the embedded `db.addCategory` performs no validation:
an empty name (empty after trimming, too) still creates and stores a
category, with no failure path at all. -/
theorem addCategory_no_validation :
    trimStr [] = [] ∧
    (addCategory 1 0 [] exEmpty).2.categories =
      [{ id := 1, name := [], createdAt := 0 }] := by
  decide

/-- C8 (amended to the remote categories endpoint of part_009): the POST
handler rejects a name that is empty after trimming, storing nothing, and
for a non-empty trimmed name creates and stores exactly one category
carrying the trimmed name. -/
theorem postCategory_validates (newId now : Nat) (name : Str) (s : StoredData) :
    ((trimStr name).isEmpty = true →
      postCategory newId now name s = (CategoryPost.validationFailed, s)) ∧
    ((trimStr name).isEmpty = false →
      postCategory newId now name s =
        (CategoryPost.created { id := newId, name := trimStr name, createdAt := now },
         { s with categories :=
            s.categories ++ [{ id := newId, name := trimStr name, createdAt := now }] })) := by
  constructor <;> intro h <;> simp [postCategory, h]

/-- C8 witness: a whitespace-only name is rejected, a real name is stored. -/
theorem postCategory_validates_w :
    (trimStr ("   ".toList)).isEmpty = true ∧
    postCategory 1 0 ("   ".toList) exEmpty = (CategoryPost.validationFailed, exEmpty) ∧
    (trimStr ("Herbs".toList)).isEmpty = false ∧
    postCategory 2 0 ("Herbs".toList) exEmpty =
      (CategoryPost.created { id := 2, name := trimStr ("Herbs".toList), createdAt := 0 },
       { exEmpty with categories :=
          exEmpty.categories ++ [{ id := 2, name := trimStr ("Herbs".toList), createdAt := 0 }] }) :=
  ⟨by decide, (postCategory_validates 1 0 ("   ".toList) exEmpty).1 (by decide),
    by decide, (postCategory_validates 2 0 ("Herbs".toList) exEmpty).2 (by decide)⟩

/-- `store.put` of a record whose key is already present keeps the
collection's size. -/
theorem putTask_length (u : Task) (l : List Task)
    (h : l.any (fun x => x.id == u.id) = true) :
    (putTask u l).length = l.length := by
  simp [putTask, h]

/-- `store.put` of a record whose key is carried by a member leaves the
record in the collection. -/
theorem putTask_mem (u : Task) (l : List Task) (t : Task) (ht : t ∈ l)
    (hid : t.id = u.id) : u ∈ putTask u l := by
  have hany : l.any (fun x => x.id == u.id) = true :=
    List.any_eq_true.mpr ⟨t, ht, by simp [hid]⟩
  simp only [putTask, hany, if_true]
  refine List.mem_map.mpr ⟨t, ht, ?_⟩
  simp [hid]

/-- C2 (amended to the embedded part_020 backend): completing a pending task
with a known id stamps `completedAt` and changes nothing else on it; when
the stored notes parse to a positive interval, exactly one successor is
created - fresh id, same plantId, type, title and notes, due `now` plus the
interval, pending, stored alongside - and when the notes parse to 0 no
successor appears and the task count is unchanged; both parts of the result
are returned. -/
theorem markTaskComplete_pending (s : StoredData) (taskId newId now : Nat)
    (t : Task) (hfind : s.tasks.find? (fun u => u.id == taskId) = some t)
    (hpending : t.completedAt = none) (hfresh : newId ≠ t.id) :
    ∃ u succ s', markTaskComplete newId now taskId s = some ((u, succ), s') ∧
      u.completedAt = some now ∧ u.id = t.id ∧ u.plantId = t.plantId ∧
      u.type = t.type ∧ u.title = t.title ∧ u.notes = t.notes ∧
      u.nextRunAt = t.nextRunAt ∧
      (0 < parseFrequency t.notes →
        ∃ n, succ = some n ∧ n.id ≠ t.id ∧ n.plantId = t.plantId ∧
          n.type = t.type ∧ n.title = t.title ∧ n.notes = t.notes ∧
          n.nextRunAt = now + parseFrequency t.notes ∧ n.completedAt = none ∧
          n ∈ s'.tasks ∧ s'.tasks.length = s.tasks.length + 1) ∧
      (parseFrequency t.notes = 0 →
        succ = none ∧ s'.tasks.length = s.tasks.length) ∧
      u ∈ s'.tasks := by
  have htmem : t ∈ s.tasks := List.mem_of_find?_eq_some hfind
  simp only [markTaskComplete, hfind]
  refine ⟨_, _, _, rfl, rfl, rfl, rfl, rfl, rfl, rfl, rfl, ?_, ?_, ?_⟩
  · intro hpos
    refine ⟨_, if_pos hpos, by simpa using hfresh, rfl, rfl, rfl, rfl, rfl, rfl, ?_, ?_⟩
    · simp only [if_pos hpos, Option.toList_some]
      exact List.mem_append_right _ (List.mem_singleton_self _)
    · simp only [if_pos hpos, Option.toList_some, List.length_append,
        List.length_singleton]
      rw [putTask_length]
      exact List.any_eq_true.mpr ⟨t, htmem, by simp⟩
  · intro hzero
    have hneg : ¬ 0 < parseFrequency t.notes := by omega
    refine ⟨if_neg hneg, ?_⟩
    simp only [if_neg hneg, Option.toList_none, List.append_nil]
    rw [putTask_length]
    exact List.any_eq_true.mpr ⟨t, htmem, by simp⟩
  · exact List.mem_append_left _ (putTask_mem _ _ t htmem rfl)

/-- A pending task whose notes quote `every 7 days`. -/
def exPendingTask : Task :=
  { id := 1, plantId := 1, type := TaskType.water, title := waterTitle,
    notes := notesWrap ("every 7 days".toList), nextRunAt := 17,
    completedAt := none }

/-- A store holding only `exPendingTask`. -/
def exStPending : StoredData := { exEmpty with tasks := [exPendingTask] }

/-- C2 witness: completing the concrete pending task at time 30 with fresh
id 2 yields the stamped task and one successor due at 37. -/
theorem markTaskComplete_pending_w :
    exStPending.tasks.find? (fun u => u.id == 1) = some exPendingTask ∧
    exPendingTask.completedAt = none ∧ (2 : Nat) ≠ exPendingTask.id ∧
    (∃ u succ s', markTaskComplete 2 30 1 exStPending = some ((u, succ), s') ∧
      u.completedAt = some 30 ∧ u.id = exPendingTask.id ∧
      u.plantId = exPendingTask.plantId ∧ u.type = exPendingTask.type ∧
      u.title = exPendingTask.title ∧ u.notes = exPendingTask.notes ∧
      u.nextRunAt = exPendingTask.nextRunAt ∧
      (0 < parseFrequency exPendingTask.notes →
        ∃ n, succ = some n ∧ n.id ≠ exPendingTask.id ∧
          n.plantId = exPendingTask.plantId ∧ n.type = exPendingTask.type ∧
          n.title = exPendingTask.title ∧ n.notes = exPendingTask.notes ∧
          n.nextRunAt = 30 + parseFrequency exPendingTask.notes ∧
          n.completedAt = none ∧ n ∈ s'.tasks ∧
          s'.tasks.length = exStPending.tasks.length + 1) ∧
      (parseFrequency exPendingTask.notes = 0 →
        succ = none ∧ s'.tasks.length = exStPending.tasks.length) ∧
      u ∈ s'.tasks) :=
  ⟨by decide, by decide, by decide,
    markTaskComplete_pending exStPending 1 2 30 exPendingTask (by decide)
      (by decide) (by decide)⟩

/-- A pending water task whose notes encode no recognizable frequency. -/
def exNoFreqTask : Task :=
  { id := 1, plantId := 1, type := TaskType.water, title := waterTitle,
    notes := "occasionally".toList, nextRunAt := 10, completedAt := none }

/-- A store holding only `exNoFreqTask`. -/
def exStNoFreq : StoredData := { exEmpty with tasks := [exNoFreqTask] }

/-- C2 counterexample: in the src/services/api.ts variant the parser is
never re-run on the notes - recurrence comes from the task type - so a
pending water task whose notes parse to 0 days still spawns a successor,
due 7 days after completion. -/
theorem api_markTaskComplete_ignores_notes :
    parseFrequency exNoFreqTask.notes = 0 ∧
    exNoFreqTask.completedAt = none ∧
    (api_markTaskComplete 2 20 1 exStNoFreq).map (fun r => r.1.2) =
      some (some { id := 2, plantId := 1, type := TaskType.water,
                   title := waterTitle, notes := "occasionally".toList,
                   nextRunAt := 27, completedAt := none }) := by
  decide

/-- The spec's ordering contract for `listPlants`, written from the spec's
words: each plant's `createdAt` is at least the next one's. -/
def specSortedByCreatedAtDesc : List Plant → Bool
  | [] => true
  | [_] => true
  | a :: b :: r => Nat.ble b.createdAt a.createdAt && specSortedByCreatedAtDesc (b :: r)

/-- A store whose key order disagrees with createdAt-descending order. -/
def exStKeyOrder : StoredData :=
  { exEmpty with
      plants := [{ id := 1, species := [], commonName := [], confidence := none,
                   nickname := [], location := none, categoryId := none,
                   createdAt := 10, photoUrl := none },
                 { id := 2, species := [], commonName := [], confidence := none,
                   nickname := [], location := none, categoryId := none,
                   createdAt := 20, photoUrl := none }] }

/-- C9 counterexample: the embedded `db.getPlants` is a bare `getAll`, so
the plants come back in key order - here ascending `createdAt`, not the
claimed descending order. -/
theorem getPlants_not_sorted :
    getPlants exStKeyOrder = exStKeyOrder.plants ∧
    (exStKeyOrder.plants.map Plant.createdAt) = [10, 20] ∧
    specSortedByCreatedAtDesc (getPlants exStKeyOrder) = false := by
  decide

/-- C9 (amended to the src/services/api.ts variant): `getPlants` returns a
permutation of the stored plants sorted by `createdAt` descending. -/
theorem api_getPlants_sorted (s : StoredData) :
    (api_getPlants s).Perm s.plants ∧
    List.Sorted (fun a b : Plant => b.createdAt ≤ a.createdAt) (api_getPlants s) := by
  haveI : IsTotal Plant (fun a b => b.createdAt ≤ a.createdAt) :=
    ⟨fun a b => (Nat.le_total b.createdAt a.createdAt).elim Or.inl Or.inr⟩
  haveI : IsTrans Plant (fun a b => b.createdAt ≤ a.createdAt) :=
    ⟨fun _ _ _ h1 h2 => Nat.le_trans h2 h1⟩
  constructor
  · exact (List.perm_insertionSort _ _).trans (List.perm_insertionSort _ _)
  · exact List.sorted_insertionSort _ _

/-- Two strings agree on their common length: neither disagrees with the
other at any position both possess. -/
def agree : Str → Str → Bool
  | [], _ => true
  | _ :: _, [] => true
  | a :: as, b :: bs => a == b && agree as bs

/-- A predicate holds of every suffix of a string. -/
def allSuf (P : Str → Bool) : Str → Bool
  | [] => P []
  | c :: cs => P (c :: cs) && allSuf P cs

/-- A literal cannot be stripped from a string that disagrees with it while
still inside the string, whatever follows. -/
theorem stripL_none_of_disagree (l lit u : Str) (h : agree l lit = false) :
    stripL lit (l ++ u) = none := by
  induction l generalizing lit with
  | nil => simp [agree] at h
  | cons a as ih =>
    cases lit with
    | nil => simp [agree] at h
    | cons b bs =>
      cases hab : a == b with
      | false =>
        have hba : (b == a) = false :=
          beq_eq_false_iff_ne.mpr (Ne.symm (beq_eq_false_iff_ne.mp hab))
        simp [stripL, hba]
      | true =>
        have hb : a = b := eq_of_beq hab
        subst hb
        have h' : agree as bs = false := by simpa [agree] using h
        simp only [List.cons_append, stripL, beq_self_eq_true, if_true]
        exact ih bs h'

/-- A pattern never prefixes a string that disagrees with it while still
inside the string, whatever follows. -/
theorem hasPre_false_of_disagree (pat l u : Str) (h : agree l pat = false) :
    hasPre pat (l ++ u) = false := by
  induction l generalizing pat with
  | nil => simp [agree] at h
  | cons a as ih =>
    cases pat with
    | nil => simp [agree] at h
    | cons b bs =>
      cases hab : a == b with
      | false =>
        have hba : (b == a) = false :=
          beq_eq_false_iff_ne.mpr (Ne.symm (beq_eq_false_iff_ne.mp hab))
        simp [hasPre, hba]
      | true =>
        have hb : a = b := eq_of_beq hab
        subst hb
        have h' : agree as bs = false := by simpa [agree] using h
        simp only [List.cons_append, hasPre, beq_self_eq_true, Bool.true_and]
        exact ih bs h'

/-- Scanning for the `every`-regex across a left context every one of whose
starting positions disagrees with `every ` finds exactly the matches of the
right part. -/
theorem findEvery_append_left (tail p u : Str)
    (h : allSuf (fun l => l.isEmpty || !agree l everyLit) p = true) :
    findEvery tail (p ++ u) = findEvery tail u := by
  induction p with
  | nil => rfl
  | cons c cs ih =>
    simp only [allSuf, Bool.and_eq_true] at h
    have h1 : agree (c :: cs) everyLit = false := by
      have h0 := h.1
      simp only [List.isEmpty_cons, Bool.false_or, Bool.not_eq_true'] at h0
      exact h0
    have hstrip : stripL everyLit ((c :: cs) ++ u) = none :=
      stripL_none_of_disagree (c :: cs) everyLit u h1
    simp only [List.cons_append] at hstrip ⊢
    have hm : matchEveryAt tail (c :: (cs ++ u)) = none := by
      unfold matchEveryAt
      rw [hstrip]
    simp only [findEvery, hm]
    exact ih h.2

/-- Occurrences of a word are confined to the right part when every starting
position of the left context disagrees with the word, so `includes` across
the junction reduces to `includes` of the right part. -/
theorem containsSub_append_left (w p u : Str)
    (h : allSuf (fun l => l.isEmpty || !agree l w) p = true) :
    containsSub w (p ++ u) = containsSub w u := by
  induction p with
  | nil => rfl
  | cons a as ih =>
    simp only [allSuf, Bool.and_eq_true] at h
    have h1 : agree (a :: as) w = false := by
      have h0 := h.1
      simp only [List.isEmpty_cons, Bool.false_or, Bool.not_eq_true'] at h0
      exact h0
    have hp : hasPre w ((a :: as) ++ u) = false := hasPre_false_of_disagree w (a :: as) u h1
    simp only [List.cons_append] at hp ⊢
    simp only [containsSub, hp, Bool.false_or]
    exact ih h.2

/-- Stripping a literal free of a character ignores that character appended
at the far end. -/
theorem stripL_snoc (lit v : Str) (c : Char) (h : c ∉ lit) :
    stripL lit (v ++ [c]) = (stripL lit v).map (fun r => r ++ [c]) := by
  induction lit generalizing v with
  | nil => simp [stripL]
  | cons b bs ih =>
    cases v with
    | nil =>
      have hbc : (b == c) = false :=
        beq_eq_false_iff_ne.mpr fun he => h (he ▸ List.mem_cons_self b bs)
      simp [stripL, hbc]
    | cons a as =>
      by_cases hba : b = a
      · subst hba
        simp only [List.cons_append, stripL, beq_self_eq_true, if_true]
        exact ih as (fun hc => h (List.mem_cons_of_mem _ hc))
      · have hba' : (b == a) = false := beq_eq_false_iff_ne.mpr hba
        simp [stripL, hba']

/-- A prefix test against a pattern free of a character ignores that
character appended at the far end. -/
theorem hasPre_snoc (pat v : Str) (c : Char) (h : c ∉ pat) :
    hasPre pat (v ++ [c]) = hasPre pat v := by
  induction pat generalizing v with
  | nil => simp [hasPre]
  | cons b bs ih =>
    cases v with
    | nil =>
      have hbc : (b == c) = false :=
        beq_eq_false_iff_ne.mpr fun he => h (he ▸ List.mem_cons_self b bs)
      simp [hasPre, hbc]
    | cons a as =>
      show (b == a && hasPre bs (as ++ [c])) = (b == a && hasPre bs as)
      rw [ih as (fun hc => h (List.mem_cons_of_mem _ hc))]

/-- `takeWhile` ignores a failing character appended at the far end. -/
theorem takeWhile_snoc (P : Char → Bool) (v : Str) (c : Char) (h : P c = false) :
    (v ++ [c]).takeWhile P = v.takeWhile P := by
  induction v with
  | nil => simp [List.takeWhile_cons, h]
  | cons a as ih =>
    cases hPa : P a <;> simp [List.takeWhile_cons, hPa, ih]

/-- `dropWhile` hands a failing character appended at the far end through. -/
theorem dropWhile_snoc (P : Char → Bool) (v : Str) (c : Char) (h : P c = false) :
    (v ++ [c]).dropWhile P = v.dropWhile P ++ [c] := by
  induction v with
  | nil => simp [List.dropWhile_cons, h]
  | cons a as ih =>
    cases hPa : P a <;> simp [List.dropWhile_cons, hPa, ih]

/-- A match attempt of `every (\d+)-?(\d+)? <tail>` cannot involve a final
character that is no digit, no dash, and occurs neither in `every ` nor in
the tail, so appending such a character changes no attempt's outcome. -/
theorem matchEveryAt_snoc (tail v : Str) (c : Char) (hlit : c ∉ everyLit)
    (hdig : isDig c = false) (hdash : (c == '-') = false)
    (htne : tail ≠ []) (htnotin : c ∉ tail) :
    matchEveryAt tail (v ++ [c]) = matchEveryAt tail v := by
  unfold matchEveryAt
  rw [stripL_snoc everyLit v c hlit]
  cases hs : stripL everyLit v with
  | none => simp
  | some r =>
    simp only [Option.map_some']
    rw [takeWhile_snoc isDig r c hdig]
    cases hd : (r.takeWhile isDig).isEmpty with
    | true => simp [hd]
    | false =>
      simp only [hd, Bool.false_eq_true, if_false]
      rw [dropWhile_snoc isDig r c hdig]
      cases hr1 : r.dropWhile isDig with
      | nil =>
        cases tail with
        | nil => exact absurd rfl htne
        | cons x xs =>
          have hxc : (x == c) = false :=
            beq_eq_false_iff_ne.mpr fun he => htnotin (he ▸ List.mem_cons_self x xs)
          simp [hasPre, hdash, hxc]
      | cons a r' =>
        by_cases ha : a = '-'
        · subst ha
          simp only [List.cons_append, List.head?_cons, List.tail_cons,
            beq_self_eq_true, if_true]
          rw [dropWhile_snoc isDig r' c hdig]
          rw [hasPre_snoc tail (r'.dropWhile isDig) c htnotin]
        · have ha' : ((some a == some '-') : Bool) = false := by
            simpa using ha
          simp only [List.cons_append, List.head?_cons, ha', Bool.false_eq_true,
            if_false]
          have hp := hasPre_snoc tail (a :: r') c htnotin
          simp only [List.cons_append] at hp
          rw [hp]

/-- Scanning for the `every`-regex ignores an appended character that can
take part in no match attempt. -/
theorem findEvery_snoc (tail u : Str) (c : Char) (hlit : c ∉ everyLit)
    (hdig : isDig c = false) (hdash : (c == '-') = false)
    (htne : tail ≠ []) (htnotin : c ∉ tail) :
    findEvery tail (u ++ [c]) = findEvery tail u := by
  induction u with
  | nil =>
    have h0 : matchEveryAt tail ([] ++ [c]) = none := by
      rw [matchEveryAt_snoc tail [] c hlit hdig hdash htne htnotin]
      simp [matchEveryAt, stripL, everyLit]
    simp only [List.nil_append] at h0
    simp [findEvery, h0]
  | cons a as ih =>
    have hm := matchEveryAt_snoc tail (a :: as) c hlit hdig hdash htne htnotin
    simp only [List.cons_append] at hm ⊢
    simp only [findEvery, hm]
    cases hma : matchEveryAt tail (a :: as) with
    | some n => rfl
    | none => exact ih

/-- `includes` of a word ignores an appended character the word does not
contain. -/
theorem containsSub_snoc (w u : Str) (c : Char) (hw : w ≠ []) (hnotin : c ∉ w) :
    containsSub w (u ++ [c]) = containsSub w u := by
  induction u with
  | nil =>
    cases w with
    | nil => exact absurd rfl hw
    | cons x xs =>
      have hxc : (x == c) = false :=
        beq_eq_false_iff_ne.mpr fun he => hnotin (he ▸ List.mem_cons_self x xs)
      simp [containsSub, hasPre, hxc]
  | cons a as ih =>
    have hp := hasPre_snoc w (a :: as) c hnotin
    simp only [List.cons_append] at hp
    show (hasPre w (a :: (as ++ [c])) || containsSub w (as ++ [c])) =
      (hasPre w (a :: as) || containsSub w as)
    rw [hp, ih]

/-- The lowercased seeding-notes wrapper text. -/
def lowNotesPre : Str := lowerStr ("Based on care profile: \"".toList)

/-- C10 core: the fixed wrapper written around an instruction at seeding
time is transparent to the Frequency Parser - no rule can fire inside the
wrapper or across its junctions, and every rule firing inside the
instruction still fires - so parsing the stored notes equals parsing the
instruction, for every instruction. -/
theorem parseFrequency_notesWrap (instr : Str) :
    parseFrequency (notesWrap instr) = parseFrequency instr := by
  have hsplit : lowerStr (notesWrap instr) = lowNotesPre ++ (lowerStr instr ++ ['"']) := by
    simp only [notesWrap, lowerStr, List.map_append]
    rfl
  have hq : ∀ tail : Str, tail ≠ [] → ('"' ∉ tail) →
      findEvery tail (lowerStr (notesWrap instr)) = findEvery tail (lowerStr instr) := by
    intro tail hne hni
    rw [hsplit, findEvery_append_left tail lowNotesPre _ (by decide),
        findEvery_snoc tail (lowerStr instr) '"' (by decide) (by decide) (by decide) hne hni]
  have hc : ∀ w : Str, w ≠ [] → ('"' ∉ w) →
      allSuf (fun l => l.isEmpty || !agree l w) lowNotesPre = true →
      containsSub w (lowerStr (notesWrap instr)) = containsSub w (lowerStr instr) := by
    intro w hne hni hall
    rw [hsplit, containsSub_append_left w lowNotesPre _ hall,
        containsSub_snoc w (lowerStr instr) '"' hne hni]
  simp only [parseFrequency]
  rw [hq daysTail (by decide) (by decide), hq weekTail (by decide) (by decide),
      hc monthlyLit (by decide) (by decide) (by decide),
      hc every4Lit (by decide) (by decide) (by decide),
      hc biWeeklyLit (by decide) (by decide) (by decide),
      hc every2Lit (by decide) (by decide) (by decide),
      hc weeklyLit (by decide) (by decide) (by decide)]

/-- C10: parsing the seeded notes `Based on care profile: "<instr>"` yields
exactly the parse of the instruction, and `markTaskComplete` copies notes
verbatim to the successor it creates, so the interval re-derived at any
completion of a task carrying seeded notes equals the seeding interval -
and, the successor carrying the same notes, this persists across all
generations. -/
theorem recurrence_interval_stable (instr : Str) :
    parseFrequency (notesWrap instr) = parseFrequency instr ∧
    ∀ newId now taskId : Nat, ∀ s : StoredData, ∀ u : Task, ∀ succ : Option Task,
      ∀ s' : StoredData, ∀ n : Task,
      markTaskComplete newId now taskId s = some ((u, succ), s') →
      succ = some n →
      n.notes = u.notes ∧
      (u.notes = notesWrap instr → n.nextRunAt = now + parseFrequency instr) := by
  refine ⟨parseFrequency_notesWrap instr, ?_⟩
  intro newId now taskId s u succ s' n hrun hsucc
  cases hfind : s.tasks.find? (fun x => x.id == taskId) with
  | none => simp [markTaskComplete, hfind] at hrun
  | some task =>
    simp only [markTaskComplete, hfind, Option.some_inj, Prod.mk.injEq] at hrun
    obtain ⟨⟨hu, hsuc⟩, _⟩ := hrun
    by_cases hpos : 0 < parseFrequency task.notes
    · rw [if_pos hpos] at hsuc
      have hn :
          n = { task with id := newId, nextRunAt := now + parseFrequency task.notes, completedAt := none } := by
        rw [hsucc] at hsuc
        exact (Option.some_inj.mp hsuc).symm
      have hunotes : u.notes = task.notes := by rw [← hu]
      constructor
      · rw [hn, hunotes]
      · intro hwrap
        have htask : task.notes = notesWrap instr := by rw [← hunotes, hwrap]
        rw [hn]
        show now + parseFrequency task.notes = now + parseFrequency instr
        rw [htask, parseFrequency_notesWrap]
    · rw [if_neg hpos, hsucc] at hsuc
      exact absurd hsuc (by simp)

/-- The concrete pending task of `exStPending` after completion at 30. -/
def exPendingDone : Task := { exPendingTask with completedAt := some 30 }

/-- The successor spawned by completing `exPendingTask` at 30. -/
def exSuccessor : Task := { exPendingTask with id := 2, nextRunAt := 37 }

/-- C10 witness: on the concrete run completing `exPendingTask` at 30, the
successor copies the notes and is due 30 plus the parse of `every 7 days`. -/
theorem recurrence_interval_stable_w :
    exSuccessor.notes = exPendingDone.notes ∧
    (exPendingDone.notes = notesWrap ("every 7 days".toList) →
      exSuccessor.nextRunAt = 30 + parseFrequency ("every 7 days".toList)) :=
  (recurrence_interval_stable ("every 7 days".toList)).2 2 30 1 exStPending
    exPendingDone (some exSuccessor)
    ⟨[], [], [], [exPendingDone, exSuccessor], [], []⟩ exSuccessor
    (by decide) rfl

end Plantia
